import Mathlib

/-!
Shallow embedding of `internal/rdb/inspect.go` (asynq inspection/recovery layer).

Modelling conventions:

* A stored byte string is modelled by `Entry`: `Entry.ok m` stands for a byte
  string that JSON-decodes to the task message `m` (canonical encoding, so
  entry equality models byte-string equality), and `Entry.bad raw` stands for
  a byte string on which `json.Unmarshal` / `cjson.decode` fails.
* A Redis list (`queue:default`, `queue:in_progress`) is a `List Entry`,
  head of the list first; `LPUSH` is consing at the head and `LRANGE 0 -1`
  is the list itself.
* A Redis sorted set (`queue:scheduled`, `queue:retry`, `queue:dead`) is a
  `List (ℚ × Entry)` kept in its stored (ascending-score) scan order;
  `ZRANGEBYSCORE k s s` filters the pairs with score `s`, `ZREM` removes the
  pairs whose member equals the given byte string, `ZRANGE 0 -1` is the list
  of members, `ZCARD` its length.  Redis scores are IEEE float64; they are
  modelled as exact rationals, and Go's `int64(score)` conversion (discard
  the fraction, truncating toward zero) is `goInt64`.
* The wall clock is passed explicitly: `time.Now()` becomes a parameter
  holding the clock value at the instant the Go code reads it.
* Lua script errors (a `cjson.decode` failure inside the scripts) and the
  resulting Go-side non-nil `err` are `Except.error`; `ErrTaskNotFound` is a
  distinguished constructor of `RdbErr`.
-/

namespace Asynq

/-- TaskMessage as stored in Redis: ID, type, payload, error/retry metadata
(`base.TaskMessage` fields used by inspect.go). `ttype` is the `Type` field
(`Type` is not a legal Lean field name); payload values are opaque strings. -/
structure TaskMessage where
  ID : String
  ttype : String
  Payload : List (String × String)
  ErrorMsg : String
  Retry : Int
  Retried : Int
deriving DecidableEq, Repr

/-- A stored byte string: either a canonical JSON encoding of a task message,
or bytes that fail to decode. -/
inductive Entry where
  | ok (msg : TaskMessage)
  | bad (raw : String)
deriving DecidableEq, Repr

/-- `json.Unmarshal` / `cjson.decode` on a stored byte string. -/
def decode : Entry → Option TaskMessage
  | .ok m => some m
  | .bad _ => none

/-- Go's `int64(f)` conversion of a float64 score: the fractional part is
discarded (truncation toward zero). -/
def goInt64 (q : ℚ) : ℤ := if 0 ≤ q then ⌊q⌋ else ⌈q⌉

/-- A sorted set, as stored: pairs (score, member) in scan order. -/
abbrev ZSet := List (ℚ × Entry)

/-- `ZRANGEBYSCORE key s s`: the members whose score is exactly `s`, in scan
order. -/
def zrangebyscore (z : ZSet) (s : ℚ) : List Entry :=
  (z.filter fun p => decide (p.1 = s)).map Prod.snd

/-- `ZREM key m`: remove the pairs whose member is the byte string `m`. -/
def zrem (z : ZSet) (m : Entry) : ZSet :=
  z.filter fun p => decide (p.2 ≠ m)

/-- The whole-store state: the five queues of the topology
(`queue:default`, `queue:in_progress`, `queue:scheduled`, `queue:retry`,
`queue:dead`). -/
structure QueueState where
  pending : List Entry
  inProgress : List Entry
  scheduled : ZSet
  retry : ZSet
  dead : ZSet
deriving DecidableEq, Repr

/-- The three sorted-set source queues of the transition engine. -/
inductive ZKey where
  | scheduled
  | retry
  | dead
deriving DecidableEq, Repr

/-- Read one sorted-set queue of the state. -/
def getZ (s : QueueState) : ZKey → ZSet
  | .scheduled => s.scheduled
  | .retry => s.retry
  | .dead => s.dead

/-- Replace one sorted-set queue of the state. -/
def setZ (s : QueueState) : ZKey → ZSet → QueueState
  | .scheduled, z => { s with scheduled := z }
  | .retry, z => { s with retry := z }
  | .dead, z => { s with dead := z }

/-- Errors surfaced by the inspect operations. -/
inductive RdbErr where
  | taskNotFound
  | scriptErr
deriving DecidableEq, Repr

/-- The loop of the `removeAndEnqueue` Lua script: walk the members returned
by `ZRANGEBYSCORE`, `cjson.decode` each (a failure aborts the script), and on
the first decoded `ID == id` do `ZREM` on the source set and `LPUSH` onto
pending, returning 1; return 0 when the walk ends. -/
def scanMove (id : String) : List Entry → ZSet → List Entry →
    Except Unit (Int × ZSet × List Entry)
  | [], z, p => .ok (0, z, p)
  | msg :: rest, z, p =>
    match decode msg with
    | none => .error ()
    | some m =>
      if m.ID = id then .ok (1, zrem z msg, msg :: p)
      else scanMove id rest z p

/-- The `removeAndEnqueue` primitive (inspect.go): run the script against one
sorted set and the pending list. -/
def removeAndEnqueue (z : ZSet) (p : List Entry) (id : String) (score : ℚ) :
    Except Unit (Int × ZSet × List Entry) :=
  scanMove id (zrangebyscore z score) z p

/-- The loop of the `deleteTask` Lua script: like `scanMove` but the matched
member is only removed, not re-inserted. -/
def scanDelete (id : String) : List Entry → ZSet → Except Unit (Int × ZSet)
  | [], z => .ok (0, z)
  | msg :: rest, z =>
    match decode msg with
    | none => .error ()
    | some m =>
      if m.ID = id then .ok (1, zrem z msg)
      else scanDelete id rest z

/-- The scan of the `deleteTask` primitive (inspect.go). -/
def deleteTaskScan (z : ZSet) (id : String) (score : ℚ) :
    Except Unit (Int × ZSet) :=
  scanDelete id (zrangebyscore z score) z

/-- The loop of the `removeAndEnqueueAll` Lua script: for each member of the
set, `ZREM` it and `LPUSH` it onto pending. -/
def drainLoop : List Entry → ZSet → List Entry → ZSet × List Entry
  | [], z, p => (z, p)
  | m :: rest, z, p => drainLoop rest (zrem z m) (m :: p)

/-- The `removeAndEnqueueAll` primitive (inspect.go): `ZRANGE 0 -1`, move
every member to pending, return `table.getn(msgs)`. -/
def removeAndEnqueueAll (z : ZSet) (p : List Entry) :
    Int × ZSet × List Entry :=
  let msgs := z.map Prod.snd
  let zp := drainLoop msgs z p
  ((msgs.length : Int), zp.1, zp.2)

/-- The shared body of `EnqueueDeadTask` / `EnqueueRetryTask` /
`EnqueueScheduledTask`: run `removeAndEnqueue` against the queue named by
`k` with `float64(score)`; propagate a script error, map count 0 to
`ErrTaskNotFound`, otherwise succeed with the updated store. -/
def enqueueByKey (s : QueueState) (k : ZKey) (id : String) (score : ℤ) :
    Except RdbErr QueueState :=
  match removeAndEnqueue (getZ s k) s.pending id (score : ℚ) with
  | .error _ => .error .scriptErr
  | .ok (n, z, p) =>
    if n = 0 then .error .taskNotFound
    else .ok { setZ s k z with pending := p }

/-- `EnqueueDeadTask id score` (inspect.go). -/
def EnqueueDeadTask (s : QueueState) (id : String) (score : ℤ) :
    Except RdbErr QueueState :=
  enqueueByKey s .dead id score

/-- `EnqueueRetryTask id score` (inspect.go). -/
def EnqueueRetryTask (s : QueueState) (id : String) (score : ℤ) :
    Except RdbErr QueueState :=
  enqueueByKey s .retry id score

/-- `EnqueueScheduledTask id score` (inspect.go). -/
def EnqueueScheduledTask (s : QueueState) (id : String) (score : ℤ) :
    Except RdbErr QueueState :=
  enqueueByKey s .scheduled id score

/-- The shared body of `DeleteDeadTask` / `DeleteRetryTask` /
`DeleteScheduledTask` (the `deleteTask` helper of inspect.go). -/
def deleteByKey (s : QueueState) (k : ZKey) (id : String) (score : ℤ) :
    Except RdbErr QueueState :=
  match deleteTaskScan (getZ s k) id (score : ℚ) with
  | .error _ => .error .scriptErr
  | .ok (n, z) =>
    if n = 0 then .error .taskNotFound
    else .ok (setZ s k z)

/-- `DeleteDeadTask id score` (inspect.go). -/
def DeleteDeadTask (s : QueueState) (id : String) (score : ℤ) :
    Except RdbErr QueueState :=
  deleteByKey s .dead id score

/-- `DeleteRetryTask id score` (inspect.go). -/
def DeleteRetryTask (s : QueueState) (id : String) (score : ℤ) :
    Except RdbErr QueueState :=
  deleteByKey s .retry id score

/-- `DeleteScheduledTask id score` (inspect.go). -/
def DeleteScheduledTask (s : QueueState) (id : String) (score : ℤ) :
    Except RdbErr QueueState :=
  deleteByKey s .scheduled id score

/-- The store state after a single-record requeue call: a Lua script aborting
with an error has performed no write before the first match, and a
`TaskNotFound` outcome performs none either, so on any `.error` the store is
unchanged. -/
def applyEnqueueByKey (s : QueueState) (k : ZKey) (id : String) (score : ℤ) :
    QueueState :=
  match enqueueByKey s k id score with
  | .error _ => s
  | .ok s2 => s2

/-- The store state after a single-record delete call (see
`applyEnqueueByKey`). -/
def applyDeleteByKey (s : QueueState) (k : ZKey) (id : String) (score : ℤ) :
    QueueState :=
  match deleteByKey s k id score with
  | .error _ => s
  | .ok s2 => s2

/-- The shared body of `EnqueueAllScheduledTasks` / `EnqueueAllRetryTasks` /
`EnqueueAllDeadTasks`: drain the queue named by `k` into pending, returning
the moved count and the updated store. -/
def enqueueAllByKey (s : QueueState) (k : ZKey) : Int × QueueState :=
  let r := removeAndEnqueueAll (getZ s k) s.pending
  (r.1, { setZ s k r.2.1 with pending := r.2.2 })

/-- `EnqueueAllScheduledTasks` (inspect.go). -/
def EnqueueAllScheduledTasks (s : QueueState) : Int × QueueState :=
  enqueueAllByKey s .scheduled

/-- `EnqueueAllRetryTasks` (inspect.go). -/
def EnqueueAllRetryTasks (s : QueueState) : Int × QueueState :=
  enqueueAllByKey s .retry

/-- `EnqueueAllDeadTasks` (inspect.go). -/
def EnqueueAllDeadTasks (s : QueueState) : Int × QueueState :=
  enqueueAllByKey s .dead

/-- View record of a pending task (`EnqueuedTask` in inspect.go). -/
structure EnqueuedTask where
  ID : String
  ttype : String
  Payload : List (String × String)
deriving DecidableEq, Repr

/-- View record of an active task (`InProgressTask` in inspect.go). -/
structure InProgressTask where
  ID : String
  ttype : String
  Payload : List (String × String)
deriving DecidableEq, Repr

/-- View record of a scheduled task; `ProcessAt` is a unix-seconds instant
(`time.Unix(int64(score), 0)`). -/
structure ScheduledTask where
  ID : String
  ttype : String
  Payload : List (String × String)
  ProcessAt : Int
  Score : Int
deriving DecidableEq, Repr

/-- View record of a retry task. -/
structure RetryTask where
  ID : String
  ttype : String
  Payload : List (String × String)
  ProcessAt : Int
  ErrorMsg : String
  Retried : Int
  Retry : Int
  Score : Int
deriving DecidableEq, Repr

/-- View record of a dead task; `LastFailedAt` is a unix-seconds instant. -/
structure DeadTask where
  ID : String
  ttype : String
  Payload : List (String × String)
  LastFailedAt : Int
  ErrorMsg : String
  Score : Int
deriving DecidableEq, Repr

/-- `ListEnqueued` (inspect.go): walk the pending list in stored order; a
decode failure aborts the whole call with the error. -/
def ListEnqueued : List Entry → Except Unit (List EnqueuedTask)
  | [] => .ok []
  | e :: rest =>
    match decode e with
    | none => .error ()
    | some m =>
      match ListEnqueued rest with
      | .error u => .error u
      | .ok ts => .ok ({ ID := m.ID, ttype := m.ttype, Payload := m.Payload } :: ts)

/-- `ListInProgress` (inspect.go): walk the active list in stored order; a
decode failure is skipped (`continue`). -/
def ListInProgress : List Entry → List InProgressTask
  | [] => []
  | e :: rest =>
    match decode e with
    | none => ListInProgress rest
    | some m =>
      { ID := m.ID, ttype := m.ttype, Payload := m.Payload } :: ListInProgress rest

/-- `ListScheduled` (inspect.go): walk `ZRANGEBYSCORE`-ordered pairs; a decode
failure is skipped; `ProcessAt` and `Score` both come from `int64(z.Score)`. -/
def ListScheduled : ZSet → List ScheduledTask
  | [] => []
  | (q, e) :: rest =>
    match decode e with
    | none => ListScheduled rest
    | some m =>
      { ID := m.ID, ttype := m.ttype, Payload := m.Payload,
        ProcessAt := goInt64 q, Score := goInt64 q } :: ListScheduled rest

/-- `ListRetry` (inspect.go): like `ListScheduled`, with the retry metadata. -/
def ListRetry : ZSet → List RetryTask
  | [] => []
  | (q, e) :: rest =>
    match decode e with
    | none => ListRetry rest
    | some m =>
      { ID := m.ID, ttype := m.ttype, Payload := m.Payload,
        ErrorMsg := m.ErrorMsg, Retry := m.Retry, Retried := m.Retried,
        ProcessAt := goInt64 q, Score := goInt64 q } :: ListRetry rest

/-- `ListDead` (inspect.go): like `ListScheduled`, with `LastFailedAt` taken
from `int64(z.Score)`. -/
def ListDead : ZSet → List DeadTask
  | [] => []
  | (q, e) :: rest =>
    match decode e with
    | none => ListDead rest
    | some m =>
      { ID := m.ID, ttype := m.ttype, Payload := m.Payload,
        ErrorMsg := m.ErrorMsg, LastFailedAt := goInt64 q,
        Score := goInt64 q } :: ListDead rest

/-- `Stats` (inspect.go): the five counts and the capture timestamp
(unix-seconds wall clock). -/
structure Stats where
  Enqueued : Int
  InProgress : Int
  Scheduled : Int
  Retry : Int
  Dead : Int
  Timestamp : Int
deriving DecidableEq, Repr

/-- `CurrentStats` (inspect.go): one pipelined round trip reading
`LLEN queue:default`, `LLEN queue:in_progress`, `ZCARD queue:scheduled`,
`ZCARD queue:retry`, `ZCARD queue:dead` against the store snapshot `s`;
`now` is the wall clock at the `time.Now()` call made after the pipeline
returns. -/
def CurrentStats (s : QueueState) (now : Int) : Stats :=
  { Enqueued := (s.pending.length : Int)
    InProgress := (s.inProgress.length : Int)
    Scheduled := (s.scheduled.length : Int)
    Retry := (s.retry.length : Int)
    Dead := (s.dead.length : Int)
    Timestamp := now }

/-- Go's `strings.Split(s, sep)` for a one-character separator, on the
character sequence of the string: cut around every occurrence of `sep`. -/
def splitChar (sep : Char) : List Char → List (List Char)
  | [] => [[]]
  | c :: rest =>
    match splitChar sep rest with
    | [] => [[]]
    | w :: ws => if c = sep then [] :: w :: ws else (c :: w) :: ws

/-- Go's `strings.Split(s, crlf)`: cut around every leftmost occurrence
of the two-character CRLF separator. -/
def splitCRLF : List Char → List (List Char)
  | [] => [[]]
  | '\r' :: '\n' :: rest => [] :: splitCRLF rest
  | c :: rest =>
    match splitCRLF rest with
    | [] => [[]]
    | w :: ws => (c :: w) :: ws

/-- Go map assignment `info[k] = v` on an association-list model of
`map[string]string`: any earlier binding of `k` is overwritten. -/
def mapInsert (info : List (String × String)) (k v : String) :
    List (String × String) :=
  (info.filter fun p => decide (p.1 ≠ k)) ++ [(k, v)]

/-- One iteration of the `RedisInfo` line loop: keep the line when
`strings.Split(l, colon)` cuts it into exactly two parts, ignore it
otherwise. -/
def redisStep (info : List (String × String)) (l : List Char) :
    List (String × String) :=
  match splitChar ':' l with
  | [k, v] => mapInsert info (String.mk k) (String.mk v)
  | _ => info

/-- The line loop of `RedisInfo` (inspect.go). -/
def redisInfoFold (lines : List (List Char)) : List (String × String) :=
  lines.foldl redisStep []

/-- `RedisInfo` (inspect.go): split the INFO text on CRLF and build the map. -/
def RedisInfo (res : String) : List (String × String) :=
  redisInfoFold (splitCRLF res.data)

/-- A declarative view of one entry of a score-ordered set, for the listing
refinement theorems: the view record a well-formed entry contributes. -/
def viewEnqueued (e : Entry) : Option EnqueuedTask :=
  (decode e).map fun m => { ID := m.ID, ttype := m.ttype, Payload := m.Payload }

/-- Declarative view of an active entry. -/
def viewInProgress (e : Entry) : Option InProgressTask :=
  (decode e).map fun m => { ID := m.ID, ttype := m.ttype, Payload := m.Payload }

/-- Declarative view of a scheduled pair. -/
def viewScheduled (p : ℚ × Entry) : Option ScheduledTask :=
  (decode p.2).map fun m =>
    { ID := m.ID, ttype := m.ttype, Payload := m.Payload,
      ProcessAt := goInt64 p.1, Score := goInt64 p.1 }

/-- Declarative view of a retry pair. -/
def viewRetry (p : ℚ × Entry) : Option RetryTask :=
  (decode p.2).map fun m =>
    { ID := m.ID, ttype := m.ttype, Payload := m.Payload,
      ProcessAt := goInt64 p.1, ErrorMsg := m.ErrorMsg,
      Retried := m.Retried, Retry := m.Retry, Score := goInt64 p.1 }

/-- Declarative view of a dead pair. -/
def viewDead (p : ℚ × Entry) : Option DeadTask :=
  (decode p.2).map fun m =>
    { ID := m.ID, ttype := m.ttype, Payload := m.Payload,
      LastFailedAt := goInt64 p.1, ErrorMsg := m.ErrorMsg,
      Score := goInt64 p.1 }

lemma mem_zrangebyscore {z : ZSet} {sc : ℚ} {e : Entry} :
    e ∈ zrangebyscore z sc ↔ (sc, e) ∈ z := by
  simp only [zrangebyscore, List.mem_map, List.mem_filter, decide_eq_true_eq]
  constructor
  · rintro ⟨⟨q, e2⟩, ⟨hmem, hq⟩, rfl⟩
    exact hq ▸ hmem
  · intro h
    exact ⟨(sc, e), ⟨h, rfl⟩, rfl⟩

lemma scanMove_skip {id : String} {pre rest : List Entry} {z : ZSet}
    {p : List Entry}
    (hpre : ∀ e2 ∈ pre, ∃ m2, decode e2 = some m2 ∧ m2.ID ≠ id) :
    scanMove id (pre ++ rest) z p = scanMove id rest z p := by
  induction pre with
  | nil => rfl
  | cons a pre ih =>
    obtain ⟨m2, hm2, hne⟩ := hpre a (List.mem_cons_self a pre)
    rw [List.cons_append]
    simp only [scanMove, hm2, if_neg hne]
    exact ih fun e2 he2 => hpre e2 (List.mem_cons_of_mem a he2)

lemma scanDelete_skip {id : String} {pre rest : List Entry} {z : ZSet}
    (hpre : ∀ e2 ∈ pre, ∃ m2, decode e2 = some m2 ∧ m2.ID ≠ id) :
    scanDelete id (pre ++ rest) z = scanDelete id rest z := by
  induction pre with
  | nil => rfl
  | cons a pre ih =>
    obtain ⟨m2, hm2, hne⟩ := hpre a (List.mem_cons_self a pre)
    rw [List.cons_append]
    simp only [scanDelete, hm2, if_neg hne]
    exact ih fun e2 he2 => hpre e2 (List.mem_cons_of_mem a he2)

lemma zrem_of_nodup {z z1 z2 : ZSet} {sc : ℚ} {e : Entry}
    (hz : z = z1 ++ (sc, e) :: z2) (hnd : (z.map Prod.snd).Nodup) :
    zrem z e = z1 ++ z2 := by
  subst hz
  have h1 : (z1.map Prod.snd ++ e :: z2.map Prod.snd).Nodup := by
    simpa using hnd
  have he1 : e ∉ z1.map Prod.snd := fun hmem =>
    List.disjoint_of_nodup_append h1 hmem (List.mem_cons_self e _)
  have he2 : e ∉ z2.map Prod.snd :=
    (List.nodup_cons.mp h1.of_append_right).1
  unfold zrem
  rw [List.filter_append, List.filter_cons]
  have : ¬ ((sc, e).2 ≠ e) := by simp
  simp only [decide_eq_true_eq, if_neg this]
  rw [List.filter_eq_self.mpr, List.filter_eq_self.mpr]
  · intro a ha
    exact decide_eq_true fun hae => he2 (hae ▸ List.mem_map_of_mem Prod.snd ha)
  · intro a ha
    exact decide_eq_true fun hae => he1 (hae ▸ List.mem_map_of_mem Prod.snd ha)

/-- C1: for every source sorted set, id and score, `removeAndEnqueue` scans
exactly the entries at that score in scan order; the first whose decoded ID
matches is removed from the set (entries after it untouched) and its
unchanged byte string is pushed onto the head of pending with result 1; the
moved bytes still decode to the same record; when no entry at the score
matches, the result is 0 and both structures are unchanged. -/
theorem removeAndEnqueue_first_match (z : ZSet) (p : List Entry) (id : String)
    (sc : ℚ) (hnd : (z.map Prod.snd).Nodup) :
    (∀ pre e post m, zrangebyscore z sc = pre ++ e :: post →
      (∀ e2 ∈ pre, ∃ m2, decode e2 = some m2 ∧ m2.ID ≠ id) →
      decode e = some m → m.ID = id →
      ∃ z1 z2, z = z1 ++ (sc, e) :: z2 ∧ zrem z e = z1 ++ z2 ∧
        removeAndEnqueue z p id sc = .ok (1, zrem z e, e :: p) ∧
        decode e = some m)
    ∧ ((∀ e ∈ zrangebyscore z sc, ∃ m2, decode e = some m2 ∧ m2.ID ≠ id) →
      removeAndEnqueue z p id sc = .ok (0, z, p)) := by
  constructor
  · intro pre e post m hsplit hpre hdec hid
    have he : e ∈ zrangebyscore z sc := by
      rw [hsplit]
      exact List.mem_append_right pre (List.mem_cons_self e post)
    obtain ⟨z1, z2, hz⟩ := List.append_of_mem (mem_zrangebyscore.mp he)
    refine ⟨z1, z2, hz, zrem_of_nodup hz hnd, ?_, hdec⟩
    unfold removeAndEnqueue
    rw [hsplit, scanMove_skip hpre]
    simp only [scanMove, hdec, if_pos hid]
  · intro hall
    unfold removeAndEnqueue
    rw [← List.append_nil (zrangebyscore z sc), scanMove_skip hall]
    rfl

/-- Witness for C1: on a two-entry set at score 1 whose first entry at that
score has a different ID, the scan skips it, moves the matching second entry
to the head of pending and removes exactly it. -/
theorem removeAndEnqueue_first_match_witness :
    removeAndEnqueue
        [((1 : ℚ), Entry.ok ⟨"b", "t", [], "", 0, 0⟩),
         ((1 : ℚ), Entry.ok ⟨"a", "t", [], "", 0, 0⟩)] [] "a" 1 =
      .ok (1, [((1 : ℚ), Entry.ok ⟨"b", "t", [], "", 0, 0⟩)],
        [Entry.ok ⟨"a", "t", [], "", 0, 0⟩]) := by
  obtain ⟨z1, z2, -, -, hrun, -⟩ :=
    (removeAndEnqueue_first_match
        [((1 : ℚ), Entry.ok ⟨"b", "t", [], "", 0, 0⟩),
         ((1 : ℚ), Entry.ok ⟨"a", "t", [], "", 0, 0⟩)] [] "a" 1 (by decide)).1
      [Entry.ok ⟨"b", "t", [], "", 0, 0⟩] (Entry.ok ⟨"a", "t", [], "", 0, 0⟩)
      [] ⟨"a", "t", [], "", 0, 0⟩ (by decide)
      (by
        intro e2 he2
        have h2 : e2 = Entry.ok ⟨"b", "t", [], "", 0, 0⟩ :=
          List.mem_singleton.mp he2
        exact ⟨⟨"b", "t", [], "", 0, 0⟩, by rw [h2]; rfl, by decide⟩)
      rfl rfl
  rw [hrun]
  rfl

lemma removeAndEnqueue_none {z : ZSet} {p : List Entry} {id : String}
    {sc : ℚ}
    (hall : ∀ e ∈ zrangebyscore z sc, ∃ m2, decode e = some m2 ∧ m2.ID ≠ id) :
    removeAndEnqueue z p id sc = .ok (0, z, p) := by
  unfold removeAndEnqueue
  rw [← List.append_nil (zrangebyscore z sc), scanMove_skip hall]
  rfl

lemma deleteTaskScan_none {z : ZSet} {id : String} {sc : ℚ}
    (hall : ∀ e ∈ zrangebyscore z sc, ∃ m2, decode e = some m2 ∧ m2.ID ≠ id) :
    deleteTaskScan z id sc = .ok (0, z) := by
  unfold deleteTaskScan
  rw [← List.append_nil (zrangebyscore z sc), scanDelete_skip hall]
  rfl

lemma scanMove_no_match {id : String} {msgs : List Entry} {z : ZSet}
    {p : List Entry}
    (h : ∀ e ∈ msgs, ∀ m, decode e = some m → m.ID ≠ id) :
    scanMove id msgs z p = .error () ∨ scanMove id msgs z p = .ok (0, z, p) := by
  induction msgs with
  | nil => exact Or.inr rfl
  | cons a rest ih =>
    cases hda : decode a with
    | none => exact Or.inl (by simp [scanMove, hda])
    | some ma =>
      have hne := h a (List.mem_cons_self a rest) ma hda
      have hstep : scanMove id (a :: rest) z p = scanMove id rest z p := by
        simp [scanMove, hda, hne]
      rw [hstep]
      exact ih fun e he m hm => h e (List.mem_cons_of_mem a he) m hm

lemma scanDelete_no_match {id : String} {msgs : List Entry} {z : ZSet}
    (h : ∀ e ∈ msgs, ∀ m, decode e = some m → m.ID ≠ id) :
    scanDelete id msgs z = .error () ∨ scanDelete id msgs z = .ok (0, z) := by
  induction msgs with
  | nil => exact Or.inr rfl
  | cons a rest ih =>
    cases hda : decode a with
    | none => exact Or.inl (by simp [scanDelete, hda])
    | some ma =>
      have hne := h a (List.mem_cons_self a rest) ma hda
      have hstep : scanDelete id (a :: rest) z = scanDelete id rest z := by
        simp [scanDelete, hda, hne]
      rw [hstep]
      exact ih fun e he m hm => h e (List.mem_cons_of_mem a he) m hm

lemma ListEnqueued_error_of_bad {b : Entry} {p : List Entry} (hmem : b ∈ p)
    (hb : decode b = none) : ListEnqueued p = .error () := by
  induction p with
  | nil => cases hmem
  | cons a t ih =>
    rcases List.mem_cons.mp hmem with rfl | hmem2
    · simp [ListEnqueued, hb]
    · cases hda : decode a with
      | none => simp [ListEnqueued, hda]
      | some ma => simp [ListEnqueued, hda, ih hmem2]

lemma drainLoop_snd (msgs : List Entry) : ∀ (z : ZSet) (p : List Entry),
    (drainLoop msgs z p).2 = msgs.reverse ++ p := by
  induction msgs with
  | nil => intro z p; rfl
  | cons m rest ih =>
    intro z p
    rw [drainLoop, ih]
    simp

lemma drainLoop_fst (msgs : List Entry) : ∀ (z : ZSet),
    ∀ (p : List Entry),
    (drainLoop msgs z p).1 = z.filter fun q => decide (q.2 ∉ msgs) := by
  induction msgs with
  | nil =>
    intro z p
    simp [drainLoop]
  | cons m rest ih =>
    intro z p
    rw [drainLoop, ih, zrem, List.filter_filter]
    refine List.filter_congr ?_
    intro a ha
    simp only [List.mem_cons, not_or, decide_not]
    cases hm : decide (a.2 = m) <;> cases hr : decide (a.2 ∈ rest) <;>
      simp_all

lemma removeAndEnqueueAll_eq (z : ZSet) (p : List Entry) :
    removeAndEnqueueAll z p =
      ((z.length : Int), [], (z.map Prod.snd).reverse ++ p) := by
  have hf : (z.filter fun q => decide (q.2 ∉ z.map Prod.snd)) = [] := by
    refine List.filter_eq_nil_iff.mpr ?_
    intro q hq
    simp only [decide_eq_true_eq, Decidable.not_not]
    exact List.mem_map_of_mem Prod.snd hq
  simp only [removeAndEnqueueAll, drainLoop_fst, drainLoop_snd, hf,
    List.length_map]

lemma getZ_set_pending (s : QueueState) (k : ZKey) (z : ZSet)
    (p : List Entry) : getZ { setZ s k z with pending := p } k = z := by
  cases k <;> rfl

/-- C2: with one well-formed and one malformed stored entry, the Pending
listing aborts with the decode error and returns no records, while the
Active, Scheduled, Retry and Dead listings silently skip the malformed entry
and return exactly the view record of the well-formed one, whichever order
the two entries are stored in. -/
theorem listing_asymmetry (g b : Entry) (m : TaskMessage) (q1 q2 : ℚ)
    (p : List Entry) (hg : decode g = some m) (hb : decode b = none) :
    (b ∈ p → ListEnqueued p = .error ())
    ∧ ListEnqueued [g, b] = .error ()
    ∧ ListEnqueued [b, g] = .error ()
    ∧ ListInProgress [g, b] =
        [{ ID := m.ID, ttype := m.ttype, Payload := m.Payload }]
    ∧ ListInProgress [b, g] =
        [{ ID := m.ID, ttype := m.ttype, Payload := m.Payload }]
    ∧ ListScheduled [(q1, g), (q2, b)] =
        [{ ID := m.ID, ttype := m.ttype, Payload := m.Payload,
           ProcessAt := goInt64 q1, Score := goInt64 q1 }]
    ∧ ListScheduled [(q2, b), (q1, g)] =
        [{ ID := m.ID, ttype := m.ttype, Payload := m.Payload,
           ProcessAt := goInt64 q1, Score := goInt64 q1 }]
    ∧ ListRetry [(q1, g), (q2, b)] =
        [{ ID := m.ID, ttype := m.ttype, Payload := m.Payload,
           ProcessAt := goInt64 q1, ErrorMsg := m.ErrorMsg,
           Retried := m.Retried, Retry := m.Retry, Score := goInt64 q1 }]
    ∧ ListRetry [(q2, b), (q1, g)] =
        [{ ID := m.ID, ttype := m.ttype, Payload := m.Payload,
           ProcessAt := goInt64 q1, ErrorMsg := m.ErrorMsg,
           Retried := m.Retried, Retry := m.Retry, Score := goInt64 q1 }]
    ∧ ListDead [(q1, g), (q2, b)] =
        [{ ID := m.ID, ttype := m.ttype, Payload := m.Payload,
           LastFailedAt := goInt64 q1, ErrorMsg := m.ErrorMsg,
           Score := goInt64 q1 }]
    ∧ ListDead [(q2, b), (q1, g)] =
        [{ ID := m.ID, ttype := m.ttype, Payload := m.Payload,
           LastFailedAt := goInt64 q1, ErrorMsg := m.ErrorMsg,
           Score := goInt64 q1 }] := by
  refine ⟨fun hmem => ListEnqueued_error_of_bad hmem hb, ?_, ?_, ?_, ?_, ?_,
    ?_, ?_, ?_, ?_, ?_⟩ <;>
    simp [ListEnqueued, ListInProgress, ListScheduled, ListRetry, ListDead,
      hg, hb]

/-- Witness for C2 at a concrete pair of entries. -/
theorem listing_asymmetry_witness :
    ListEnqueued [Entry.ok ⟨"a", "t", [], "", 0, 0⟩, Entry.bad "x"] =
        .error ()
    ∧ ListScheduled [((1 : ℚ), Entry.ok ⟨"a", "t", [], "", 0, 0⟩),
        ((2 : ℚ), Entry.bad "x")] =
      [{ ID := "a", ttype := "t", Payload := [], ProcessAt := goInt64 1,
         Score := goInt64 1 }] :=
  ⟨(listing_asymmetry (Entry.ok ⟨"a", "t", [], "", 0, 0⟩) (Entry.bad "x")
      ⟨"a", "t", [], "", 0, 0⟩ 1 2 [] rfl rfl).2.1,
   (listing_asymmetry (Entry.ok ⟨"a", "t", [], "", 0, 0⟩) (Entry.bad "x")
      ⟨"a", "t", [], "", 0, 0⟩ 1 2 [] rfl rfl).2.2.2.2.2.1⟩

/-- C3: each single-record requeue operation (`EnqueueDeadTask`,
`EnqueueRetryTask`, `EnqueueScheduledTask`, all instances of `enqueueByKey`)
and each single-record delete operation (`DeleteDeadTask`, `DeleteRetryTask`,
`DeleteScheduledTask`, instances of `deleteByKey`) returns the
`ErrTaskNotFound` sentinel exactly when its scan primitive returned count 0,
succeeds with the moved/deleted state when the count is nonzero, and in
particular returns the sentinel whenever every entry at the given score
decodes to a non-matching ID. -/
theorem requeue_delete_not_found (s : QueueState) (k : ZKey) (id : String)
    (score : ℤ) :
    (∀ n z2 p2,
      removeAndEnqueue (getZ s k) s.pending id (score : ℚ) = .ok (n, z2, p2) →
      ((enqueueByKey s k id score = .error .taskNotFound ↔ n = 0)
        ∧ (n ≠ 0 →
          enqueueByKey s k id score = .ok { setZ s k z2 with pending := p2 })))
    ∧ (∀ n z2,
      deleteTaskScan (getZ s k) id (score : ℚ) = .ok (n, z2) →
      ((deleteByKey s k id score = .error .taskNotFound ↔ n = 0)
        ∧ (n ≠ 0 → deleteByKey s k id score = .ok (setZ s k z2))))
    ∧ ((∀ e ∈ zrangebyscore (getZ s k) (score : ℚ),
        ∃ m2, decode e = some m2 ∧ m2.ID ≠ id) →
      enqueueByKey s k id score = .error .taskNotFound
        ∧ deleteByKey s k id score = .error .taskNotFound)
    ∧ EnqueueDeadTask s id score = enqueueByKey s .dead id score
    ∧ EnqueueRetryTask s id score = enqueueByKey s .retry id score
    ∧ EnqueueScheduledTask s id score = enqueueByKey s .scheduled id score
    ∧ DeleteDeadTask s id score = deleteByKey s .dead id score
    ∧ DeleteRetryTask s id score = deleteByKey s .retry id score
    ∧ DeleteScheduledTask s id score = deleteByKey s .scheduled id score := by
  refine ⟨?_, ?_, ?_, rfl, rfl, rfl, rfl, rfl, rfl⟩
  · intro n z2 p2 h
    by_cases hn : n = 0 <;> simp [enqueueByKey, h, hn]
  · intro n z2 h
    by_cases hn : n = 0 <;> simp [deleteByKey, h, hn]
  · intro hall
    constructor
    · simp [enqueueByKey, removeAndEnqueue_none hall]
    · simp [deleteByKey, deleteTaskScan_none hall]

/-- Witness for C3: on a store whose retry queue has no entry at score 2,
both the requeue and the delete return the sentinel. -/
theorem requeue_delete_not_found_witness :
    enqueueByKey
        { pending := [], inProgress := [],
          scheduled := [], retry := [((1 : ℚ), Entry.ok ⟨"a", "t", [], "", 0, 0⟩)],
          dead := [] } .retry "zz" 2 = .error .taskNotFound
    ∧ deleteByKey
        { pending := [], inProgress := [],
          scheduled := [], retry := [((1 : ℚ), Entry.ok ⟨"a", "t", [], "", 0, 0⟩)],
          dead := [] } .retry "zz" 2 = .error .taskNotFound :=
  (requeue_delete_not_found
      { pending := [], inProgress := [],
        scheduled := [], retry := [((1 : ℚ), Entry.ok ⟨"a", "t", [], "", 0, 0⟩)],
        dead := [] } .retry "zz" 2).2.2.1
    (fun e he => absurd he (List.not_mem_nil e))

/-- C4: the bulk requeue operations (`EnqueueAllScheduledTasks`,
`EnqueueAllRetryTasks`, `EnqueueAllDeadTasks`, all instances of
`enqueueAllByKey`) move every record of the source queue to pending with
its stored bytes preserved, return the number of records, and leave the
source queue empty. -/
theorem enqueueAll_drains_source (s : QueueState) (k : ZKey) :
    (enqueueAllByKey s k).1 = ((getZ s k).length : Int)
    ∧ getZ (enqueueAllByKey s k).2 k = []
    ∧ (enqueueAllByKey s k).2.pending =
        ((getZ s k).map Prod.snd).reverse ++ s.pending
    ∧ EnqueueAllScheduledTasks s = enqueueAllByKey s .scheduled
    ∧ EnqueueAllRetryTasks s = enqueueAllByKey s .retry
    ∧ EnqueueAllDeadTasks s = enqueueAllByKey s .dead := by
  have h := removeAndEnqueueAll_eq (getZ s k) s.pending
  refine ⟨?_, ?_, ?_, rfl, rfl, rfl⟩ <;>
    simp [enqueueAllByKey, h, getZ_set_pending]

/-- C5: when no entry of the target queue at the given score decodes to the
given id, a single-record requeue or delete (any `enqueueByKey` or
`deleteByKey` call) leaves the whole five-queue store byte-for-byte
unchanged. -/
theorem not_found_leaves_queues_unchanged (s : QueueState) (k : ZKey)
    (id : String) (score : ℤ)
    (habs : ∀ e ∈ zrangebyscore (getZ s k) (score : ℚ),
      ∀ m, decode e = some m → m.ID ≠ id) :
    applyEnqueueByKey s k id score = s ∧ applyDeleteByKey s k id score = s := by
  constructor
  · unfold applyEnqueueByKey enqueueByKey removeAndEnqueue
    rcases scanMove_no_match (z := getZ s k) (p := s.pending) habs with h | h <;>
      simp [h]
  · unfold applyDeleteByKey deleteByKey deleteTaskScan
    rcases scanDelete_no_match (z := getZ s k) habs with h | h <;>
      simp [h]

/-- Witness for C5: concrete store, absent (id, score) pair, store returned
unchanged by both operations. -/
theorem not_found_leaves_queues_unchanged_witness :
    applyEnqueueByKey
        { pending := [Entry.bad "x"], inProgress := [],
          scheduled := [((1 : ℚ), Entry.ok ⟨"a", "t", [], "", 0, 0⟩)],
          retry := [], dead := [] } .scheduled "zz" 2 =
      { pending := [Entry.bad "x"], inProgress := [],
        scheduled := [((1 : ℚ), Entry.ok ⟨"a", "t", [], "", 0, 0⟩)],
        retry := [], dead := [] }
    ∧ applyDeleteByKey
        { pending := [Entry.bad "x"], inProgress := [],
          scheduled := [((1 : ℚ), Entry.ok ⟨"a", "t", [], "", 0, 0⟩)],
          retry := [], dead := [] } .scheduled "zz" 2 =
      { pending := [Entry.bad "x"], inProgress := [],
        scheduled := [((1 : ℚ), Entry.ok ⟨"a", "t", [], "", 0, 0⟩)],
        retry := [], dead := [] } :=
  not_found_leaves_queues_unchanged
    { pending := [Entry.bad "x"], inProgress := [],
      scheduled := [((1 : ℚ), Entry.ok ⟨"a", "t", [], "", 0, 0⟩)],
      retry := [], dead := [] } .scheduled "zz" 2
    (fun e he => absurd he (List.not_mem_nil e))

lemma mem_redisStep {info : List (String × String)} {l : List Char}
    {pr : String × String} (h : pr ∈ redisStep info l) :
    pr ∈ info ∨ splitChar ':' l = [pr.1.data, pr.2.data] := by
  have h2 : pr ∈ (match splitChar ':' l with
      | [k, v] => mapInsert info (String.mk k) (String.mk v)
      | _ => info) := h
  cases hws : splitChar ':' l with
  | nil => rw [hws] at h2; exact Or.inl h2
  | cons k rest =>
    cases hrest : rest with
    | nil => rw [hws, hrest] at h2; exact Or.inl h2
    | cons v rest2 =>
      cases hrest2 : rest2 with
      | cons w rest3 => rw [hws, hrest, hrest2] at h2; exact Or.inl h2
      | nil =>
        rw [hws, hrest, hrest2] at h2
        rcases List.mem_append.mp h2 with h3 | h3
        · exact Or.inl (List.mem_filter.mp h3).1
        · have h4 : pr = (String.mk k, String.mk v) :=
            List.mem_singleton.mp h3
          rw [h4]
          exact Or.inr rfl

lemma key_stays {lines : List (List Char)} :
    ∀ {acc : List (String × String)} {k0 v0 : String}, (k0, v0) ∈ acc →
    ∃ v2, (k0, v2) ∈ lines.foldl redisStep acc := by
  induction lines with
  | nil => exact fun h => ⟨_, h⟩
  | cons l rest ih =>
    intro acc k0 v0 h
    rw [List.foldl_cons]
    have hstep : ∃ v1, (k0, v1) ∈ redisStep acc l := by
      unfold redisStep
      cases hws : splitChar ':' l with
      | nil => exact ⟨v0, h⟩
      | cons k rest1 =>
        cases rest1 with
        | nil => exact ⟨v0, h⟩
        | cons v rest2 =>
          cases rest2 with
          | cons w rest3 => exact ⟨v0, h⟩
          | nil =>
            by_cases hk : String.mk k = k0
            · exact ⟨String.mk v, hk ▸ List.mem_append_right _
                (List.mem_singleton.mpr rfl)⟩
            · refine ⟨v0, List.mem_append_left _ ?_⟩
              refine List.mem_filter.mpr ⟨h, ?_⟩
              exact decide_eq_true fun he => hk (he ▸ rfl)
    obtain ⟨v1, h1⟩ := hstep
    exact ih h1

lemma line_key_in_fold {lines : List (List Char)} :
    ∀ {acc : List (String × String)} {k v : List Char},
    (∃ l ∈ lines, splitChar ':' l = [k, v]) →
    ∃ v2, (String.mk k, v2) ∈ lines.foldl redisStep acc := by
  induction lines with
  | nil => rintro acc k v ⟨l, hl, -⟩; cases hl
  | cons l0 rest ih =>
    rintro acc k v ⟨l, hl, hsplit⟩
    rw [List.foldl_cons]
    rcases List.mem_cons.mp hl with rfl | hl2
    · have hmem : (String.mk k, String.mk v) ∈ redisStep acc l := by
        unfold redisStep
        rw [hsplit]
        exact List.mem_append_right _ (List.mem_singleton.mpr rfl)
      exact key_stays hmem
    · exact ih ⟨l, hl2, hsplit⟩

lemma fold_mem_from_line {lines : List (List Char)} :
    ∀ {acc : List (String × String)} {pr : String × String},
    pr ∈ lines.foldl redisStep acc →
    pr ∈ acc ∨ ∃ l ∈ lines, splitChar ':' l = [pr.1.data, pr.2.data] := by
  induction lines with
  | nil => exact fun h => Or.inl h
  | cons l0 rest ih =>
    intro acc pr h
    rw [List.foldl_cons] at h
    rcases ih h with h2 | ⟨l, hl, hs⟩
    · rcases mem_redisStep h2 with h3 | h3
      · exact Or.inl h3
      · exact Or.inr ⟨l0, List.mem_cons_self l0 rest, h3⟩
    · exact Or.inr ⟨l, List.mem_cons_of_mem l0 hl, hs⟩

lemma fold_no_two_part {lines : List (List Char)}
    (h : ∀ l ∈ lines, ∀ a b, splitChar ':' l ≠ [a, b]) :
    ∀ acc, lines.foldl redisStep acc = acc := by
  induction lines with
  | nil => exact fun _ => rfl
  | cons l0 rest ih =>
    intro acc
    rw [List.foldl_cons]
    have hstep : redisStep acc l0 = acc := by
      unfold redisStep
      cases hws : splitChar ':' l0 with
      | nil => rfl
      | cons k rest1 =>
        cases rest1 with
        | nil => rfl
        | cons v rest2 =>
          cases rest2 with
          | cons w rest3 => rfl
          | nil => exact absurd hws (h l0 (List.mem_cons_self l0 rest) k v)
    rw [hstep]
    exact ih (fun l hl => h l (List.mem_cons_of_mem l0 hl)) acc

/-- C6: `CurrentStats` reads, against one snapshot of the store, the list
lengths of Pending and Active and the cardinalities of Scheduled, Retry and
Dead (in the model the five reads are issued against the single state `s`,
reflecting the one pipelined round trip), returns exactly those five counts,
and carries a timestamp taken at completion, hence no earlier than the start
of the call. -/
theorem currentStats_counts (s : QueueState) (start now : Int)
    (hclock : start ≤ now) :
    CurrentStats s now =
      { Enqueued := (s.pending.length : Int),
        InProgress := (s.inProgress.length : Int),
        Scheduled := (s.scheduled.length : Int),
        Retry := (s.retry.length : Int),
        Dead := (s.dead.length : Int), Timestamp := now }
    ∧ start ≤ (CurrentStats s now).Timestamp
    ∧ (s.pending.length = 3 → s.inProgress.length = 1 →
        s.scheduled.length = 2 → s.retry.length = 0 → s.dead.length = 1 →
        CurrentStats s now =
          { Enqueued := 3, InProgress := 1, Scheduled := 2, Retry := 0,
            Dead := 1, Timestamp := now }) := by
  refine ⟨rfl, hclock, ?_⟩
  intro h1 h2 h3 h4 h5
  simp [CurrentStats, h1, h2, h3, h4, h5]

/-- Witness for C6 on the spec's example queue sizes 3 / 1 / 2 / 0 / 1 with
the call starting at clock 5 and completing at clock 7. -/
theorem currentStats_counts_witness :
    CurrentStats
        { pending := [Entry.bad "a", Entry.bad "b", Entry.bad "c"],
          inProgress := [Entry.bad "d"],
          scheduled := [((1 : ℚ), Entry.bad "e"), ((2 : ℚ), Entry.bad "f")],
          retry := [], dead := [((3 : ℚ), Entry.bad "g")] } 7 =
      { Enqueued := 3, InProgress := 1, Scheduled := 2, Retry := 0, Dead := 1,
        Timestamp := 7 }
    ∧ (5 : Int) ≤ (CurrentStats
        { pending := [Entry.bad "a", Entry.bad "b", Entry.bad "c"],
          inProgress := [Entry.bad "d"],
          scheduled := [((1 : ℚ), Entry.bad "e"), ((2 : ℚ), Entry.bad "f")],
          retry := [], dead := [((3 : ℚ), Entry.bad "g")] } 7).Timestamp :=
  ⟨(currentStats_counts
      { pending := [Entry.bad "a", Entry.bad "b", Entry.bad "c"],
        inProgress := [Entry.bad "d"],
        scheduled := [((1 : ℚ), Entry.bad "e"), ((2 : ℚ), Entry.bad "f")],
        retry := [], dead := [((3 : ℚ), Entry.bad "g")] } 5 7
      (by decide)).2.2 rfl rfl rfl rfl rfl,
   (currentStats_counts
      { pending := [Entry.bad "a", Entry.bad "b", Entry.bad "c"],
        inProgress := [Entry.bad "d"],
        scheduled := [((1 : ℚ), Entry.bad "e"), ((2 : ℚ), Entry.bad "f")],
        retry := [], dead := [((3 : ℚ), Entry.bad "g")] } 5 7
      (by decide)).2.1⟩

/-- C7: `RedisInfo` splits the INFO text on CRLF; every pair of the resulting
mapping comes from a line that splits on the colon into exactly two parts
(first part the key, second the value), every such line contributes its key
to the mapping, and if no line splits into exactly two parts the mapping is
empty — lines with zero or several colons are ignored without error. -/
theorem redisInfo_line_parsing (res : String) (k v : String) :
    ((k, v) ∈ RedisInfo res →
      ∃ l ∈ splitCRLF res.data, splitChar ':' l = [k.data, v.data])
    ∧ ((∃ l ∈ splitCRLF res.data, splitChar ':' l = [k.data, v.data]) →
      ∃ v2, (k, v2) ∈ RedisInfo res)
    ∧ ((∀ l ∈ splitCRLF res.data, ∀ a b, splitChar ':' l ≠ [a, b]) →
      RedisInfo res = []) := by
  refine ⟨?_, ?_, ?_⟩
  · intro h
    rcases fold_mem_from_line h with h2 | h2
    · cases h2
    · exact h2
  · intro h
    exact line_key_in_fold h
  · intro h
    exact fold_no_two_part h []

/-- Witness for C7 on a concrete INFO blob with one `key:value` line and one
colon-free line. -/
theorem redisInfo_line_parsing_witness :
    ∃ l ∈ splitCRLF ("x:1\r\nrubbish").data,
      splitChar ':' l = ["x".data, "1".data] :=
  (redisInfo_line_parsing "x:1\r\nrubbish" "x" "1").1 (by decide)

lemma goInt64_mono {q r : ℚ} (h : q ≤ r) : goInt64 q ≤ goInt64 r := by
  unfold goInt64
  by_cases hq : 0 ≤ q
  · rw [if_pos hq, if_pos (hq.trans h)]
    exact Int.floor_le_floor h
  · rw [if_neg hq]
    by_cases hr : 0 ≤ r
    · rw [if_pos hr]
      have h1 : ⌈q⌉ ≤ 0 :=
        Int.ceil_le.mpr (by exact_mod_cast le_of_lt (lt_of_not_ge hq))
      have h2 : 0 ≤ ⌊r⌋ := Int.le_floor.mpr (by exact_mod_cast hr)
      omega
    · rw [if_neg hr]
      exact Int.ceil_le_ceil h

lemma ListEnqueued_eq {p : List Entry} (h : ∀ e ∈ p, decode e ≠ none) :
    ListEnqueued p = .ok (p.filterMap viewEnqueued) := by
  induction p with
  | nil => rfl
  | cons e rest ih =>
    cases hd : decode e with
    | none => exact absurd hd (h e (List.mem_cons_self e rest))
    | some m =>
      have h2 := ih fun e2 he2 => h e2 (List.mem_cons_of_mem e he2)
      simp [ListEnqueued, viewEnqueued, hd, h2]

lemma ListInProgress_eq (l : List Entry) :
    ListInProgress l = l.filterMap viewInProgress := by
  induction l with
  | nil => rfl
  | cons e rest ih =>
    cases hd : decode e with
    | none => simp [ListInProgress, viewInProgress, hd, ih]
    | some m => simp [ListInProgress, viewInProgress, hd, ih]

lemma ListScheduled_eq (z : ZSet) :
    ListScheduled z = z.filterMap viewScheduled := by
  induction z with
  | nil => rfl
  | cons a rest ih =>
    obtain ⟨q, e⟩ := a
    cases hd : decode e with
    | none => simp [ListScheduled, viewScheduled, hd, ih]
    | some m => simp [ListScheduled, viewScheduled, hd, ih]

lemma ListRetry_eq (z : ZSet) : ListRetry z = z.filterMap viewRetry := by
  induction z with
  | nil => rfl
  | cons a rest ih =>
    obtain ⟨q, e⟩ := a
    cases hd : decode e with
    | none => simp [ListRetry, viewRetry, hd, ih]
    | some m => simp [ListRetry, viewRetry, hd, ih]

lemma ListDead_eq (z : ZSet) : ListDead z = z.filterMap viewDead := by
  induction z with
  | nil => rfl
  | cons a rest ih =>
    obtain ⟨q, e⟩ := a
    cases hd : decode e with
    | none => simp [ListDead, viewDead, hd, ih]
    | some m => simp [ListDead, viewDead, hd, ih]

/-- C8: when the scan of `removeAndEnqueue` or `deleteTask` meets, at the
exact score, an undecodable entry before any entry with the requested ID,
the in-script `cjson.decode` raises, the whole operation surfaces the script
error, and the store is left unmodified — the skip-malformed policy of the
listings does not apply to the transition primitives. -/
theorem malformed_entry_aborts_transition (s : QueueState) (k : ZKey)
    (id : String) (score : ℤ) (pre : List Entry) (b : Entry)
    (post : List Entry)
    (hsplit : zrangebyscore (getZ s k) (score : ℚ) = pre ++ b :: post)
    (hpre : ∀ e2 ∈ pre, ∃ m2, decode e2 = some m2 ∧ m2.ID ≠ id)
    (hb : decode b = none) :
    removeAndEnqueue (getZ s k) s.pending id (score : ℚ) = .error ()
    ∧ deleteTaskScan (getZ s k) id (score : ℚ) = .error ()
    ∧ enqueueByKey s k id score = .error .scriptErr
    ∧ deleteByKey s k id score = .error .scriptErr
    ∧ applyEnqueueByKey s k id score = s
    ∧ applyDeleteByKey s k id score = s := by
  have h1 : removeAndEnqueue (getZ s k) s.pending id (score : ℚ) =
      .error () := by
    unfold removeAndEnqueue
    rw [hsplit, scanMove_skip hpre]
    simp [scanMove, hb]
  have h2 : deleteTaskScan (getZ s k) id (score : ℚ) = .error () := by
    unfold deleteTaskScan
    rw [hsplit, scanDelete_skip hpre]
    simp [scanDelete, hb]
  refine ⟨h1, h2, ?_, ?_, ?_, ?_⟩ <;>
    simp [enqueueByKey, deleteByKey, applyEnqueueByKey, applyDeleteByKey,
      h1, h2]

/-- Witness for C8: a store whose retry queue holds a single undecodable
entry at score 1; requeue and delete against that score leave the store
unchanged and fail. -/
theorem malformed_entry_aborts_transition_witness :
    applyEnqueueByKey
        { pending := [], inProgress := [], scheduled := [],
          retry := [((1 : ℚ), Entry.bad "x")], dead := [] } .retry "a" 1 =
      { pending := [], inProgress := [], scheduled := [],
        retry := [((1 : ℚ), Entry.bad "x")], dead := [] }
    ∧ applyDeleteByKey
        { pending := [], inProgress := [], scheduled := [],
          retry := [((1 : ℚ), Entry.bad "x")], dead := [] } .retry "a" 1 =
      { pending := [], inProgress := [], scheduled := [],
        retry := [((1 : ℚ), Entry.bad "x")], dead := [] } :=
  ⟨(malformed_entry_aborts_transition
      { pending := [], inProgress := [], scheduled := [],
        retry := [((1 : ℚ), Entry.bad "x")], dead := [] } .retry "a" 1
      [] (Entry.bad "x") [] (by decide)
      (fun e2 he2 => absurd he2 (List.not_mem_nil e2)) rfl).2.2.2.2.1,
   (malformed_entry_aborts_transition
      { pending := [], inProgress := [], scheduled := [],
        retry := [((1 : ℚ), Entry.bad "x")], dead := [] } .retry "a" 1
      [] (Entry.bad "x") [] (by decide)
      (fun e2 he2 => absurd he2 (List.not_mem_nil e2)) rfl).2.2.2.2.2⟩

/-- C9: the Pending and Active listings return one view record per
well-formed entry in the list's stored order (Pending under the
no-malformed-entry condition its abort policy requires), the three
score-ordered listings return one view record per well-formed pair in the
stored scan order with ID, type and payload carried over unchanged, and when
the stored set is sorted by score the emitted records are sorted by their
`Score` field. -/
theorem listings_preserve_store_order (p l : List Entry) (z : ZSet) :
    ((∀ e ∈ p, decode e ≠ none) →
      ListEnqueued p = .ok (p.filterMap viewEnqueued))
    ∧ ListInProgress l = l.filterMap viewInProgress
    ∧ ListScheduled z = z.filterMap viewScheduled
    ∧ ListRetry z = z.filterMap viewRetry
    ∧ ListDead z = z.filterMap viewDead
    ∧ (z.Pairwise (fun a b => a.1 ≤ b.1) →
        ((ListScheduled z).map ScheduledTask.Score).Pairwise (· ≤ ·)
        ∧ ((ListRetry z).map RetryTask.Score).Pairwise (· ≤ ·)
        ∧ ((ListDead z).map DeadTask.Score).Pairwise (· ≤ ·)) := by
  refine ⟨ListEnqueued_eq, ListInProgress_eq l, ListScheduled_eq z,
    ListRetry_eq z, ListDead_eq z, ?_⟩
  intro hz
  refine ⟨?_, ?_, ?_⟩
  · rw [ListScheduled_eq z, List.pairwise_map]
    refine List.Pairwise.filterMap viewScheduled ?_ hz
    rintro ⟨qa, ea⟩ ⟨qb, eb⟩ hle x hx y hy
    simp only [viewScheduled, Option.mem_def, Option.map_eq_some'] at hx hy
    obtain ⟨ma, -, rfl⟩ := hx
    obtain ⟨mb, -, rfl⟩ := hy
    exact goInt64_mono hle
  · rw [ListRetry_eq z, List.pairwise_map]
    refine List.Pairwise.filterMap viewRetry ?_ hz
    rintro ⟨qa, ea⟩ ⟨qb, eb⟩ hle x hx y hy
    simp only [viewRetry, Option.mem_def, Option.map_eq_some'] at hx hy
    obtain ⟨ma, -, rfl⟩ := hx
    obtain ⟨mb, -, rfl⟩ := hy
    exact goInt64_mono hle
  · rw [ListDead_eq z, List.pairwise_map]
    refine List.Pairwise.filterMap viewDead ?_ hz
    rintro ⟨qa, ea⟩ ⟨qb, eb⟩ hle x hx y hy
    simp only [viewDead, Option.mem_def, Option.map_eq_some'] at hx hy
    obtain ⟨ma, -, rfl⟩ := hx
    obtain ⟨mb, -, rfl⟩ := hy
    exact goInt64_mono hle

/-- Witness for C9: a fully decodable pending list, and a score-sorted
scheduled set whose emitted records come out sorted by `Score`. -/
theorem listings_preserve_store_order_witness :
    ListEnqueued [Entry.ok ⟨"a", "t", [], "", 0, 0⟩] =
      .ok ([Entry.ok ⟨"a", "t", [], "", 0, 0⟩].filterMap viewEnqueued)
    ∧ ((ListScheduled
        [((1 : ℚ), Entry.ok ⟨"a", "t", [], "", 0, 0⟩),
         ((2 : ℚ), Entry.bad "x"),
         ((3 : ℚ), Entry.ok ⟨"b", "t", [], "", 0, 0⟩)]).map
        ScheduledTask.Score).Pairwise (· ≤ ·) :=
  ⟨(listings_preserve_store_order [Entry.ok ⟨"a", "t", [], "", 0, 0⟩] []
      []).1 (by decide),
   ((listings_preserve_store_order [] []
      [((1 : ℚ), Entry.ok ⟨"a", "t", [], "", 0, 0⟩),
       ((2 : ℚ), Entry.bad "x"),
       ((3 : ℚ), Entry.ok ⟨"b", "t", [], "", 0, 0⟩)]).2.2.2.2.2
      (by decide)).1⟩

/-- C10: every view record emitted by the score-ordered listings derives its
time fields by Go's `int64` conversion of the stored score — `ProcessAt`
(Scheduled, Retry), `LastFailedAt` (Dead) and `Score` all equal
`goInt64 score` — and `goInt64` is exactly integer truncation toward zero,
so the fractional part of a stored score is discarded in the view. -/
theorem view_time_fields_truncate (q : ℚ) (e : Entry) (m : TaskMessage)
    (rest : ZSet) (hd : decode e = some m) :
    ListScheduled ((q, e) :: rest) =
      { ID := m.ID, ttype := m.ttype, Payload := m.Payload,
        ProcessAt := goInt64 q, Score := goInt64 q } :: ListScheduled rest
    ∧ ListRetry ((q, e) :: rest) =
      { ID := m.ID, ttype := m.ttype, Payload := m.Payload,
        ProcessAt := goInt64 q, ErrorMsg := m.ErrorMsg,
        Retried := m.Retried, Retry := m.Retry,
        Score := goInt64 q } :: ListRetry rest
    ∧ ListDead ((q, e) :: rest) =
      { ID := m.ID, ttype := m.ttype, Payload := m.Payload,
        LastFailedAt := goInt64 q, ErrorMsg := m.ErrorMsg,
        Score := goInt64 q } :: ListDead rest
    ∧ (0 ≤ q → ((goInt64 q : ℚ) ≤ q ∧ q < (goInt64 q : ℚ) + 1))
    ∧ (q < 0 → (q ≤ (goInt64 q : ℚ) ∧ (goInt64 q : ℚ) < q + 1)) := by
  refine ⟨?_, ?_, ?_, ?_, ?_⟩
  · simp [ListScheduled, hd]
  · simp [ListRetry, hd]
  · simp [ListDead, hd]
  · intro hq
    unfold goInt64
    rw [if_pos hq]
    exact ⟨Int.floor_le q, Int.lt_floor_add_one q⟩
  · intro hq
    unfold goInt64
    rw [if_neg (not_le.mpr hq)]
    exact ⟨Int.le_ceil q, Int.ceil_lt_add_one q⟩

/-- Witness for C10 at the fractional score 7/2: the emitted `ProcessAt` and
`Score` are the truncation 3. -/
theorem view_time_fields_truncate_witness :
    ListScheduled
        [((⟨7, 2, by decide, by decide⟩ : ℚ),
          Entry.ok ⟨"a", "t", [], "", 0, 0⟩)] =
      [{ ID := "a", ttype := "t", Payload := [], ProcessAt := 3,
         Score := 3 }] := by
  have h := (view_time_fields_truncate (⟨7, 2, by decide, by decide⟩ : ℚ)
      (Entry.ok ⟨"a", "t", [], "", 0, 0⟩) ⟨"a", "t", [], "", 0, 0⟩ [] rfl).1
  rw [h]
  decide

end Asynq
